import Mathlib

/-!
Shallow embedding of the Socket.io chat server (server.js) for verification.

The server keeps four pieces of global mutable state:

  const users = {};          -- socket.id → { username, id }
  const messages = [];       -- global message log
  const typingUsers = {};    -- socket.id → username
  const rooms = ["general"];   -- known room names

Socket events mutate this state and emit outbound events; the HTTP route
`GET /api/messages` paginates the log.  We model JavaScript objects used as
string-keyed maps by association lists (insertion-ordered, no duplicate
keys when built by the operations below), `Date.now()` by a `now : Nat`
argument carried on each event that calls it, and `Array.prototype.slice`
with its ECMAScript negative-index semantics.
-/

/-- Caller payload of a `send_message` event (`messageData`).  The handler
spreads it first and then overwrites `id`, `sender`, `senderId`,
`timestamp`, `room`, `reactions`, `readBy`, `delivered`, so a caller-supplied
`id` field never survives; we keep it in the payload to state that fact. -/
structure SendData where
  message : String
  callerId : Option Nat
  deriving Repr, DecidableEq

/-- Caller payload of a `send_file` event (`fileData`). -/
structure FileData where
  name : String
  type : String
  size : Nat
  deriving Repr, DecidableEq

/-- The `file` object stored on a file message. -/
structure FileMeta where
  name : String
  type : String
  size : Nat
  url : String
  deriving Repr, DecidableEq

/-- One reaction entry `{ emoji, count }` on a message. -/
structure Reaction where
  emoji : String
  count : Nat
  deriving Repr, DecidableEq

/-- A stored chat message (the object built in `send_message` / `send_file`).
`timestamp` is the `Date.now()` value at creation (the code stores its ISO
rendering).  Text messages have `file = none`; file messages have an empty
body (the code simply has no `message` field there) and `file = some _`. -/
structure Message where
  id : Nat
  sender : String
  senderId : String
  body : String
  timestamp : Nat
  room : String
  reactions : List Reaction
  readBy : List String
  delivered : Bool
  file : Option FileMeta
  deriving Repr, DecidableEq

/-- One entry of `Object.values(users)`: `{ username, id }`. -/
structure UserEntry where
  username : String
  id : String
  deriving Repr, DecidableEq

/-- Association-list lookup, modelling `obj[key]` on a JS object. -/
def lookupKey {β : Type} (l : List (String × β)) (k : String) : Option β :=
  match l with
  | [] => none
  | (k', v) :: rest => if k' = k then some v else lookupKey rest k

/-- Assignment `obj[key] = v` on a JS object: replace in place if the key exists
(JS objects keep the original key position), else append. -/
def setKey {β : Type} (l : List (String × β)) (k : String) (v : β) :
    List (String × β) :=
  match l with
  | [] => [(k, v)]
  | (k', v') :: rest =>
      if k' = k then (k, v) :: rest else (k', v') :: setKey rest k v

/-- Deletion `delete obj[key]` on a JS object. -/
def delKey {β : Type} (l : List (String × β)) (k : String) :
    List (String × β) :=
  l.filter (fun p => decide (p.1 ≠ k))

/-- JS `x || d` on a string: the empty string is falsy. -/
def strOr (x : Option String) (d : String) : String :=
  match x with
  | none => d
  | some s => if s = "" then d else s

/-- The sender name read as `users[socket.id]?.username || "Anonymous"`. -/
def senderNameOf (users : List (String × String)) (sid : String) : String :=
  strOr (lookupKey users sid) "Anonymous"

/-- The current room read as `socket.room || "general"`. -/
def roomNameOf (socketRoom : List (String × String)) (sid : String) : String :=
  strOr (lookupKey socketRoom sid) "general"

/-- The full mutable server state: the four globals, together with the
per-socket `socket.room` field, the socket.io room memberships created by
`socket.join`, and the set of live connections (socket.io keeps every
socket in a room named by its own id, which `socket.to(...)` can target). -/
structure ServerState where
  users : List (String × String)
  messages : List Message
  typingUsers : List (String × String)
  rooms : List String
  socketRoom : List (String × String)
  joined : List (String × List String)
  connected : List String
  deriving Repr, DecidableEq

/-- Initial state: all maps empty, rooms holding only "general". -/
def initState : ServerState :=
  { users := [], messages := [], typingUsers := [], rooms := ["general"],
    socketRoom := [], joined := [], connected := [] }

/-- Inbound events.  The socket id of the emitting connection is the first
argument; events whose handler calls `Date.now()` carry that value as `now`. -/
inductive Event where
  | connect (sid : String)
  | userJoin (sid : String) (username : String)
  | sendMessage (sid : String) (data : SendData) (now : Nat)
  | typing (sid : String) (isTyping : Bool)
  | privateMessage (sid : String) (tgt : String) (body : String) (now : Nat)
  | joinRoom (sid : String) (roomName : String)
  | createRoom (sid : String) (roomName : String)
  | sendFile (sid : String) (data : FileData) (now : Nat)
  | addReaction (sid : String) (messageId : Nat) (emoji : String)
  | markAsRead (sid : String) (messageId : Nat)
  | disconnect (sid : String)
  deriving Repr, DecidableEq

/-- The socket id a given event comes from. -/
def Event.conn : Event → String
  | .connect sid => sid
  | .userJoin sid _ => sid
  | .sendMessage sid _ _ => sid
  | .typing sid _ => sid
  | .privateMessage sid _ _ _ => sid
  | .joinRoom sid _ => sid
  | .createRoom sid _ => sid
  | .sendFile sid _ _ => sid
  | .addReaction sid _ _ => sid
  | .markAsRead sid _ => sid
  | .disconnect sid => sid

/-- The `Date.now()` value the handler of an event reads, if it reads one. -/
def Event.now : Event → Option Nat
  | .sendMessage _ _ n => some n
  | .privateMessage _ _ _ n => some n
  | .sendFile _ _ n => some n
  | _ => none

/-- Outbound events, tagged with their audience as the code addresses it:
`io.emit` (everyone), `io.to(room).emit` (room members),
`socket.to(room).emit` (room members except the sender), or `socket.emit`
(the sender itself). -/
inductive Out where
  | userListAll (l : List UserEntry)
  | userJoinedAll (username : String) (sid : String)
  | userLeftAll (username : String) (sid : String)
  | receiveMessageRoom (room : String) (m : Message)
  | messageAckSelf (sid : String) (messageId : Nat)
  | typingUsersAll (l : List String)
  | privateMessageRoomExcept (room : String) (sender : String)
      (id : Nat) (senderName : String) (body : String)
  | privateMessageSelf (sender : String)
      (id : Nat) (senderName : String) (body : String)
  | roomListAll (l : List String)
  | messageUpdatedRoom (room : String) (m : Message)
  deriving Repr, DecidableEq

/-- Snapshot `Object.values(users)` as emitted in `user_list`: the stored
`{ username, id }` objects in key-insertion order. -/
def userListOf (users : List (String × String)) : List UserEntry :=
  users.map (fun p => { username := p.2, id := p.1 })

/-- Snapshot `Object.values(typingUsers)`: the typing usernames in key-insertion
order. -/
def typingListOf (typingUsers : List (String × String)) : List String :=
  typingUsers.map (fun p => p.2)

/-- Lookup `messages.find(msg => msg.id === messageId)`. -/
def findMessage (msgs : List Message) (mid : Nat) : Option Message :=
  msgs.find? (fun m => m.id == mid)

/-- The in-place reaction update on one message's `reactions` array:
`find` the entry for the emoji and bump its count, else push a new entry. -/
def addReactionEntry (rs : List Reaction) (emoji : String) : List Reaction :=
  match rs with
  | [] => [{ emoji := emoji, count := 1 }]
  | r :: rest =>
      if r.emoji = emoji then { r with count := r.count + 1 } :: rest
      else r :: addReactionEntry rest emoji

/-- The `add_reaction` mutation on the store: update the first message whose
id matches, leave everything else in place. -/
def storeAddReaction (msgs : List Message) (mid : Nat) (emoji : String) :
    List Message :=
  match msgs with
  | [] => []
  | m :: rest =>
      if m.id = mid then { m with reactions := addReactionEntry m.reactions emoji } :: rest
      else m :: storeAddReaction rest mid emoji

/-- The `mark_as_read` mutation on the store: push the reader onto the first
matching message's `readBy`, if not already there. -/
def storeMarkRead (msgs : List Message) (mid : Nat) (sid : String) :
    List Message :=
  match msgs with
  | [] => []
  | m :: rest =>
      if m.id = mid then
        (if sid ∈ m.readBy then m else { m with readBy := m.readBy ++ [sid] }) :: rest
      else m :: storeMarkRead rest mid sid

/-- The message object built by the `send_message` handler.  The spread of
`messageData` comes first, so the server-set fields override any
caller-supplied ones (in particular the id field of `messageData` is discarded). -/
def mkTextMessage (s : ServerState) (sid : String) (data : SendData)
    (now : Nat) : Message :=
  { id := now,
    sender := senderNameOf s.users sid,
    senderId := sid,
    body := data.message,
    timestamp := now,
    room := roomNameOf s.socketRoom sid,
    reactions := [],
    readBy := [],
    delivered := false,
    file := none }

/-- The message object built by the `send_file` handler. -/
def mkFileMessage (s : ServerState) (sid : String) (data : FileData)
    (now : Nat) : Message :=
  { id := now,
    sender := senderNameOf s.users sid,
    senderId := sid,
    body := "",
    timestamp := now,
    room := roomNameOf s.socketRoom sid,
    reactions := [],
    readBy := [],
    delivered := false,
    file := some { name := data.name, type := data.type, size := data.size,
                   url := "/uploads/" ++ data.name } }

/-- One step of the server: dispatch an inbound event to its handler,
returning the new state and the emitted outbound events in order. -/
def stepE (s : ServerState) (e : Event) : ServerState × List Out :=
  match e with
  | .connect sid =>
      ({ s with connected := s.connected ++ [sid] }, [])
  | .userJoin sid username =>
      let users' := setKey s.users sid username
      ({ s with users := users' },
       [.userListAll (userListOf users'), .userJoinedAll username sid])
  | .sendMessage sid data now =>
      let m := mkTextMessage s sid data now
      let pushed := s.messages ++ [m]
      let msgs' := if pushed.length > 100 then pushed.tail else pushed
      ({ s with messages := msgs' },
       [.receiveMessageRoom m.room m, .messageAckSelf sid m.id])
  | .typing sid isTyping =>
      match lookupKey s.users sid with
      | some username =>
          let typing' :=
            if isTyping then setKey s.typingUsers sid username
            else delKey s.typingUsers sid
          ({ s with typingUsers := typing' },
           [.typingUsersAll (typingListOf typing')])
      | none => (s, [])
  | .privateMessage sid tgt body now =>
      let senderName := senderNameOf s.users sid
      (s, [.privateMessageRoomExcept tgt sid now senderName body,
           .privateMessageSelf sid now senderName body])
  | .joinRoom sid roomName =>
      let prev := (lookupKey s.joined sid).getD []
      ({ s with socketRoom := setKey s.socketRoom sid roomName,
                joined := setKey s.joined sid (prev ++ [roomName]) }, [])
  | .createRoom _ roomName =>
      if roomName ∈ s.rooms then (s, [])
      else
        let rooms' := s.rooms ++ [roomName]
        ({ s with rooms := rooms' }, [.roomListAll rooms'])
  | .sendFile sid data now =>
      let m := mkFileMessage s sid data now
      ({ s with messages := s.messages ++ [m] },
       [.receiveMessageRoom m.room m])
  | .addReaction _ messageId emoji =>
      match findMessage s.messages messageId with
      | some _ =>
          let msgs' := storeAddReaction s.messages messageId emoji
          match findMessage msgs' messageId with
          | some m' =>
              ({ s with messages := msgs' }, [.messageUpdatedRoom m'.room m'])
          | none => ({ s with messages := msgs' }, [])
      | none => (s, [])
  | .markAsRead sid messageId =>
      match findMessage s.messages messageId with
      | some m =>
          if sid ∈ m.readBy then (s, [])
          else
            let msgs' := storeMarkRead s.messages messageId sid
            match findMessage msgs' messageId with
            | some m' =>
                ({ s with messages := msgs' }, [.messageUpdatedRoom m'.room m'])
            | none => ({ s with messages := msgs' }, [])
      | none => (s, [])
  | .disconnect sid =>
      let leftOut :=
        match lookupKey s.users sid with
        | some username => [Out.userLeftAll username sid]
        | none => []
      let users' := delKey s.users sid
      let typing' := delKey s.typingUsers sid
      ({ s with users := users', typingUsers := typing',
                socketRoom := delKey s.socketRoom sid,
                joined := delKey s.joined sid,
                connected := s.connected.filter (fun c => decide (c ≠ sid)) },
       leftOut ++ [.userListAll (userListOf users'),
                   .typingUsersAll (typingListOf typing')])

/-- State after one event, outputs discarded. -/
def step (s : ServerState) (e : Event) : ServerState := (stepE s e).1

/-- State after a list of events. -/
def steps (s : ServerState) (es : List Event) : ServerState :=
  es.foldl step s

/-- All outbound events emitted while processing a list of events. -/
def stepsOuts (s : ServerState) (es : List Event) : List Out :=
  match es with
  | [] => []
  | e :: rest => (stepE s e).2 ++ stepsOuts (step s e) rest

/-- The socket.io rooms a socket belongs to: the room named by its own id
(automatic) plus every room it has done `socket.join` on. -/
def membersOf (s : ServerState) (room : String) : List String :=
  s.connected.filter
    (fun c => c == room || room ∈ (lookupKey s.joined c).getD [])

/-- Whether a given connection receives a given outbound event, resolving
the audience tag against the current state. -/
def deliveredTo (s : ServerState) (o : Out) (c : String) : Bool :=
  match o with
  | .userListAll _ => c ∈ s.connected
  | .userJoinedAll _ _ => c ∈ s.connected
  | .userLeftAll _ _ => c ∈ s.connected
  | .receiveMessageRoom room _ => c ∈ membersOf s room
  | .messageAckSelf sid _ => c == sid
  | .typingUsersAll _ => c ∈ s.connected
  | .privateMessageRoomExcept room sender _ _ _ =>
      c ∈ membersOf s room && c != sender
  | .privateMessageSelf sender _ _ _ => c == sender
  | .roomListAll _ => c ∈ s.connected
  | .messageUpdatedRoom room _ => c ∈ membersOf s room

/-- ECMAScript `Array.prototype.slice(start, end)` on a list, with the
relative (negative-index) semantics of the spec:
`k = start < 0 ? max(len+start, 0) : min(start, len)` and likewise for
`end`; the result is the elements at indices `[k, final)`. -/
def jsSlice {α : Type} (l : List α) (start stop : Int) : List α :=
  let len : Int := l.length
  let k : Int := if start < 0 then max (len + start) 0 else min start len
  let fin : Int := if stop < 0 then max (len + stop) 0 else min stop len
  (l.drop k.toNat).take (fin - k).toNat

/-- JS `parseInt(q) || d`: `none` models a missing or non-numeric parameter
(`parseInt` returns `NaN`), and a parsed `0` is falsy, so both fall back to
the default. -/
def intParamOr (q : Option Int) (d : Int) : Int :=
  match q with
  | none => d
  | some v => if v = 0 then d else v

/-- Response shape of `GET /api/messages`. -/
structure PageResponse where
  messages : List Message
  total : Nat
  page : Int
  limit : Int
  hasMore : Bool
  deriving Repr, DecidableEq

/-- The `GET /api/messages` handler: parse `page`/`limit`/`room` with
defaults, filter the log by room, and slice `[(page-1)*limit, page*limit)`
with JS `slice`. -/
def apiMessages (s : ServerState) (roomQ : Option String)
    (pageQ limitQ : Option Int) : PageResponse :=
  let page := intParamOr pageQ 1
  let limit := intParamOr limitQ 20
  let room := strOr roomQ "general"
  let roomMessages := s.messages.filter (fun m => m.room == room)
  let startIndex := (page - 1) * limit
  let endIndex := page * limit
  { messages := jsSlice roomMessages startIndex endIndex,
    total := roomMessages.length,
    page := page,
    limit := limit,
    hasMore := endIndex < (roomMessages.length : Int) }

/-- Ids of the stored messages, in store order. -/
def idsOf (s : ServerState) : List Nat := s.messages.map (fun m => m.id)

def c1FileEvents : List Event :=
  (List.range 101).map (fun i => Event.sendFile "s1" { name := "f", type := "t", size := 0 } i)

def c2CollisionEvents : List Event :=
  [Event.sendMessage "a" { message := "hi", callerId := none } 5,
   Event.sendMessage "a" { message := "again", callerId := none } 5]

def c2WitnessEvents : List Event :=
  [Event.sendMessage "a" { message := "hi", callerId := some 999 } 3,
   Event.sendFile "a" { name := "f", type := "t", size := 1 } 7]

def c10State : ServerState := { initState with users := [("a", "alice")] }

/-- The count shown for an emoji in a reactions array: the count field of the
first entry for that emoji, 0 when there is none. -/
def reactionCount : List Reaction → String → Nat
  | [], _ => 0
  | r :: rest, e => if r.emoji = e then r.count else reactionCount rest e

/-- The emojis a call sequence introduces, in first-occurrence order,
skipping those already present. -/
def newEmojis (present : List String) : List String → List String
  | [] => []
  | e :: es =>
      if e ∈ present then newEmojis present es
      else e :: newEmojis (present ++ [e]) es

def c3Msg : Message :=
  { id := 1, sender := "alice", senderId := "a", body := "hi", timestamp := 0,
    room := "general", reactions := [], readBy := [], delivered := false,
    file := none }

def c3State : ServerState := { initState with messages := [c3Msg] }

/-- The claim-side reading of "the messages at the index range `[a, b)`":
the elements whose position in the list lies in that integer interval. -/
def indexSlice {α : Type} (l : List α) (a b : Int) : List α :=
  (l.enum.filter
    (fun p => decide (a ≤ (p.1 : Int)) && decide ((p.1 : Int) < b))).map
    (fun p => p.2)

def c4Msg (i : Nat) : Message :=
  { id := i, sender := "alice", senderId := "a", body := "m", timestamp := 0,
    room := "general", reactions := [], readBy := [], delivered := false,
    file := none }

def c4State : ServerState :=
  { initState with messages := [c4Msg 0, c4Msg 1, c4Msg 2] }

def c6State : ServerState := { initState with connected := ["A", "B", "C"] }

/-- A reachable state in which the third connection C has joined, via a
join_room event, a room whose name equals the socket id of B. -/
def c6BadState : ServerState :=
  steps initState
    [Event.connect "A", Event.connect "B", Event.connect "C",
     Event.joinRoom "C" "B"]

def c7State : ServerState :=
  { initState with
    users := [("a", "alice"), ("b", "bob")],
    typingUsers := [("a", "alice")],
    connected := ["a", "b"] }

def c7Tail : List Event :=
  [Event.userJoin "b" "bob", Event.typing "b" true]

set_option maxRecDepth 10000

lemma storeAddReaction_map_id (msgs : List Message) (mid : Nat) (e : String) :
    (storeAddReaction msgs mid e).map (fun m => m.id) = msgs.map (fun m => m.id) := by
  induction msgs with
  | nil => rfl
  | cons m rest ih =>
      simp only [storeAddReaction]
      split <;> simp [ih]

lemma storeMarkRead_map_id (msgs : List Message) (mid : Nat) (sid : String) :
    (storeMarkRead msgs mid sid).map (fun m => m.id) = msgs.map (fun m => m.id) := by
  induction msgs with
  | nil => rfl
  | cons m rest ih =>
      simp only [storeMarkRead]
      split
      · split <;> simp
      · simp [ih]

lemma step_typing_messages (s : ServerState) (sid : String) (b : Bool) :
    (step s (Event.typing sid b)).messages = s.messages := by
  simp only [step, stepE]
  cases lookupKey s.users sid <;> rfl

lemma step_createRoom_messages (s : ServerState) (sid r : String) :
    (step s (Event.createRoom sid r)).messages = s.messages := by
  simp only [step, stepE]
  split <;> rfl

lemma step_addReaction_ids (s : ServerState) (sid : String) (mid : Nat) (e : String) :
    idsOf (step s (Event.addReaction sid mid e)) = idsOf s := by
  simp only [step, stepE, idsOf]
  repeat' split
  all_goals simp [storeAddReaction_map_id]

lemma step_markAsRead_ids (s : ServerState) (sid : String) (mid : Nat) :
    idsOf (step s (Event.markAsRead sid mid)) = idsOf s := by
  simp only [step, stepE, idsOf]
  repeat' split
  all_goals simp [storeMarkRead_map_id]

lemma idsOf_step_sendMessage (s : ServerState) (sid : String) (data : SendData)
    (now : Nat) :
    idsOf (step s (Event.sendMessage sid data now)) =
      if (s.messages ++ [mkTextMessage s sid data now]).length > 100
      then (idsOf s ++ [now]).tail else idsOf s ++ [now] := by
  simp only [step, stepE, idsOf]
  split <;> simp [mkTextMessage, List.map_tail]

lemma idsOf_step_sendFile (s : ServerState) (sid : String) (data : FileData)
    (now : Nat) :
    idsOf (step s (Event.sendFile sid data now)) = idsOf s ++ [now] := by
  simp [step, stepE, idsOf, mkFileMessage]

lemma sorted_snoc {l : List Nat} {a : Nat} (hl : List.Sorted (· ≤ ·) l)
    (ha : ∀ i ∈ l, i ≤ a) : List.Sorted (· ≤ ·) (l ++ [a]) := by
  rw [List.Sorted, List.pairwise_append]
  exact ⟨hl, List.pairwise_singleton _ _, fun x hx b hb => by
    simp only [List.mem_singleton] at hb
    exact hb ▸ ha x hx⟩

lemma ids_sorted_steps (es : List Event) : ∀ (s : ServerState),
    List.Sorted (· ≤ ·) (idsOf s) →
    (∀ i ∈ idsOf s, ∀ n ∈ es.filterMap Event.now, i ≤ n) →
    List.Sorted (· ≤ ·) (es.filterMap Event.now) →
    List.Sorted (· ≤ ·) (idsOf (steps s es)) := by
  induction es with
  | nil => intro s hs _ _; exact hs
  | cons e rest ih =>
      intro s hs hb hn
      show List.Sorted (· ≤ ·) (idsOf (steps (step s e) rest))
      cases e with
      | connect sid =>
          exact ih _ hs (by simpa [Event.now] using hb) (by simpa [Event.now] using hn)
      | userJoin sid u =>
          exact ih _ hs (by simpa [Event.now] using hb) (by simpa [Event.now] using hn)
      | typing sid b =>
          have h1 : idsOf (step s (Event.typing sid b)) = idsOf s := by
            simp [idsOf, step_typing_messages]
          rw [show steps (step s (Event.typing sid b)) rest = steps (step s (Event.typing sid b)) rest from rfl]
          exact ih _ (h1 ▸ hs) (by rw [h1]; simpa [Event.now] using hb)
            (by simpa [Event.now] using hn)
      | privateMessage sid tgt body now =>
          have hfm : (Event.privateMessage sid tgt body now :: rest).filterMap Event.now
              = now :: rest.filterMap Event.now := by simp [Event.now]
          rw [hfm] at hb hn
          exact ih _ hs (fun i hi n hn' => hb i hi n (List.mem_cons_of_mem _ hn')) hn.of_cons
      | joinRoom sid r =>
          exact ih _ hs (by simpa [Event.now] using hb) (by simpa [Event.now] using hn)
      | createRoom sid r =>
          have h1 : idsOf (step s (Event.createRoom sid r)) = idsOf s := by
            simp [idsOf, step_createRoom_messages]
          exact ih _ (h1 ▸ hs) (by rw [h1]; simpa [Event.now] using hb)
            (by simpa [Event.now] using hn)
      | addReaction sid mid em =>
          have h1 := step_addReaction_ids s sid mid em
          exact ih _ (h1 ▸ hs) (by rw [h1]; simpa [Event.now] using hb)
            (by simpa [Event.now] using hn)
      | markAsRead sid mid =>
          have h1 := step_markAsRead_ids s sid mid
          exact ih _ (h1 ▸ hs) (by rw [h1]; simpa [Event.now] using hb)
            (by simpa [Event.now] using hn)
      | disconnect sid =>
          exact ih _ hs (by simpa [Event.now] using hb) (by simpa [Event.now] using hn)
      | sendMessage sid data now =>
          have hfm : (Event.sendMessage sid data now :: rest).filterMap Event.now
              = now :: rest.filterMap Event.now := by simp [Event.now]
          rw [hfm] at hb hn
          have hnow : List.Sorted (· ≤ ·) (now :: rest.filterMap Event.now) := hn
          have hble : ∀ i ∈ idsOf s, i ≤ now := by
            intro i hi
            exact hb i hi now (List.mem_cons_self _ _)
          have hsnoc : List.Sorted (· ≤ ·) (idsOf s ++ [now]) := sorted_snoc hs hble
          have h1 := idsOf_step_sendMessage s sid data now
          have hsorted : List.Sorted (· ≤ ·) (idsOf (step s (Event.sendMessage sid data now))) := by
            rw [h1]; split
            · exact hsnoc.tail
            · exact hsnoc
          apply ih _ hsorted
          · intro i hi n hn'
            have hi' : i ∈ idsOf s ++ [now] := by
              rw [h1] at hi
              revert hi
              split
              · intro hi; exact (List.tail_sublist _).mem hi
              · intro hi; exact hi
            rcases List.mem_append.mp hi' with h | h
            · exact hb i h n (List.mem_cons_of_mem _ hn')
            · have : i = now := by simpa using h
              subst this
              exact (List.sorted_cons.mp hnow).1 n hn'
          · exact hnow.of_cons
      | sendFile sid data now =>
          have hfm : (Event.sendFile sid data now :: rest).filterMap Event.now
              = now :: rest.filterMap Event.now := by simp [Event.now]
          rw [hfm] at hb hn
          have hnow : List.Sorted (· ≤ ·) (now :: rest.filterMap Event.now) := hn
          have hble : ∀ i ∈ idsOf s, i ≤ now := by
            intro i hi
            exact hb i hi now (List.mem_cons_self _ _)
          have h1 := idsOf_step_sendFile s sid data now
          apply ih _ (h1 ▸ sorted_snoc hs hble)
          · intro i hi n hn'
            rw [h1] at hi
            rcases List.mem_append.mp hi with h | h
            · exact hb i h n (List.mem_cons_of_mem _ hn')
            · have : i = now := by simpa using h
              subst this
              exact (List.sorted_cons.mp hnow).1 n hn'
          · exact hnow.of_cons

/-- C1: the claim says every append, from send_message or send_file, evicts the
oldest message once the store would exceed 100.  The send_file handler pushes
without the bound check, so after 101 send_file events the store holds 101
messages and the first-inserted message (id 0) is still present. -/
theorem c1_sendFile_breaks_bound :
    ((steps initState c1FileEvents).messages.map (fun m => m.id)) = List.range 101 ∧
    (steps initState c1FileEvents).messages.length = 101 := by
  constructor
  · decide
  · decide

/-- C2 counterexample: two send_message events handled at the same
Date.now() millisecond store two messages with the same id 5, so ids are
not pairwise distinct (and not strictly increasing). -/
theorem c2_ids_collide :
    ((steps initState c2CollisionEvents).messages.map (fun m => m.id)) = [5, 5] ∧
    ¬ List.Pairwise (· ≠ ·) ((steps initState c2CollisionEvents).messages.map (fun m => m.id)) := by
  constructor
  · decide
  · decide

/-- C2 (amended): identifiers are assigned by the server (the id stored is the
Date.now() value, regardless of any caller-supplied id field), and given a
non-decreasing clock the stored ids are non-decreasing in creation order;
they need not be pairwise distinct. -/
theorem c2_ids_server_assigned_nondecreasing
    (es : List Event) (s : ServerState) (sid : String) (data : SendData)
    (fd : FileData) (now : Nat)
    (h : List.Sorted (· ≤ ·) (es.filterMap Event.now)) :
    List.Sorted (· ≤ ·) ((steps initState es).messages.map (fun m => m.id)) ∧
    (mkTextMessage s sid data now).id = now ∧
    (mkFileMessage s sid fd now).id = now :=
  ⟨ids_sorted_steps es initState (by simp [idsOf, initState])
      (by simp [idsOf, initState]) h,
   rfl, rfl⟩

/-- Witness for the amended C2 at a concrete event list with clock 3 then 7. -/
theorem c2_ids_witness :
    List.Sorted (· ≤ ·) (c2WitnessEvents.filterMap Event.now) ∧
    List.Sorted (· ≤ ·) ((steps initState c2WitnessEvents).messages.map (fun m => m.id)) ∧
    (mkTextMessage initState "a" { message := "hi", callerId := some 999 } 3).id = 3 :=
  ⟨by decide,
   (c2_ids_server_assigned_nondecreasing c2WitnessEvents initState "a"
      { message := "hi", callerId := some 999 }
      { name := "f", type := "t", size := 1 } 3 (by decide)).1,
   (c2_ids_server_assigned_nondecreasing c2WitnessEvents initState "a"
      { message := "hi", callerId := some 999 }
      { name := "f", type := "t", size := 1 } 3 (by decide)).2.1⟩

lemma getLast_tail_concat {α : Type} (l : List α) (a : α) (h : l ≠ []) :
    ((l ++ [a]).tail).getLast? = some a := by
  cases l with
  | nil => exact absurd rfl h
  | cons x xs => simp

/-- C8: a send_message or send_file from a connection with no bound username
stores and broadcasts the message with sender "Anonymous"; with no current
room the message lands in room "general"; the event is processed normally
(the built message is appended at the tail of the store). -/
theorem c8_missing_fields_degrade (s : ServerState) (sid : String)
    (data : SendData) (fd : FileData) (now : Nat)
    (hu : lookupKey s.users sid = none)
    (hr : lookupKey s.socketRoom sid = none) :
    (mkTextMessage s sid data now).sender = "Anonymous" ∧
    (mkTextMessage s sid data now).room = "general" ∧
    (mkFileMessage s sid fd now).sender = "Anonymous" ∧
    (mkFileMessage s sid fd now).room = "general" ∧
    (step s (Event.sendMessage sid data now)).messages.getLast? =
      some (mkTextMessage s sid data now) ∧
    (step s (Event.sendFile sid fd now)).messages.getLast? =
      some (mkFileMessage s sid fd now) ∧
    (stepE s (Event.sendMessage sid data now)).2 =
      [Out.receiveMessageRoom "general" (mkTextMessage s sid data now),
       Out.messageAckSelf sid now] := by
  refine ⟨by simp [mkTextMessage, senderNameOf, strOr, hu],
          by simp [mkTextMessage, roomNameOf, strOr, hr],
          by simp [mkFileMessage, senderNameOf, strOr, hu],
          by simp [mkFileMessage, roomNameOf, strOr, hr], ?_, ?_, ?_⟩
  · simp only [step, stepE]
    split
    · next hlen =>
        apply getLast_tail_concat
        intro hnil
        rw [hnil] at hlen
        simp at hlen
    · simp
  · simp [step, stepE]
  · simp [stepE, mkTextMessage, roomNameOf, strOr, hr]

/-- Witness for C8 at the initial state, where no username or room is bound. -/
theorem c8_witness :
    lookupKey initState.users "s9" = none ∧
    (mkTextMessage initState "s9" { message := "hello", callerId := none } 4).sender
      = "Anonymous" ∧
    (mkTextMessage initState "s9" { message := "hello", callerId := none } 4).room
      = "general" ∧
    (step initState (Event.sendMessage "s9" { message := "hello", callerId := none } 4)).messages.getLast?
      = some (mkTextMessage initState "s9" { message := "hello", callerId := none } 4) :=
  ⟨rfl,
   (c8_missing_fields_degrade initState "s9" { message := "hello", callerId := none }
      { name := "f", type := "t", size := 0 } 4 rfl rfl).1,
   (c8_missing_fields_degrade initState "s9" { message := "hello", callerId := none }
      { name := "f", type := "t", size := 0 } 4 rfl rfl).2.1,
   (c8_missing_fields_degrade initState "s9" { message := "hello", callerId := none }
      { name := "f", type := "t", size := 0 } 4 rfl rfl).2.2.2.2.1⟩

/-- C9: create_room adds an unknown name to the room list and broadcasts the
updated list; a duplicate name leaves the whole state unchanged and emits
nothing. -/
theorem c9_createRoom_idempotent (s : ServerState) (sid name : String) :
    (name ∉ s.rooms →
      (stepE s (Event.createRoom sid name)).1.rooms = s.rooms ++ [name] ∧
      (stepE s (Event.createRoom sid name)).2 =
        [Out.roomListAll (s.rooms ++ [name])]) ∧
    (name ∈ s.rooms →
      (stepE s (Event.createRoom sid name)).1 = s ∧
      (stepE s (Event.createRoom sid name)).2 = []) := by
  constructor <;> intro h <;> simp [stepE, h]

/-- Witness for C9: creating "dev" from the initial state adds it and emits
the room list; creating "general" again changes nothing and emits nothing. -/
theorem c9_witness :
    ((stepE initState (Event.createRoom "c" "dev")).1.rooms = ["general", "dev"] ∧
     (stepE initState (Event.createRoom "c" "dev")).2 =
       [Out.roomListAll ["general", "dev"]]) ∧
    ((stepE initState (Event.createRoom "c" "general")).1 = initState ∧
     (stepE initState (Event.createRoom "c" "general")).2 = []) :=
  ⟨(c9_createRoom_idempotent initState "c" "dev").1 (by decide),
   (c9_createRoom_idempotent initState "c" "general").2 (by decide)⟩

/-- C10: a typing event from a connection absent from the user registry
leaves the state unchanged and emits nothing; from a registered connection
it updates the typing map and broadcasts the updated typing-username list
to all connections. -/
theorem c10_typing_guard (s : ServerState) (sid : String) (b : Bool) :
    (lookupKey s.users sid = none →
      stepE s (Event.typing sid b) = (s, [])) ∧
    (∀ u, lookupKey s.users sid = some u →
      (stepE s (Event.typing sid b)).1.typingUsers =
        (if b then setKey s.typingUsers sid u else delKey s.typingUsers sid) ∧
      (stepE s (Event.typing sid b)).2 =
        [Out.typingUsersAll (typingListOf
          (if b then setKey s.typingUsers sid u else delKey s.typingUsers sid))]) := by
  constructor
  · intro h
    simp [stepE, h]
  · intro u h
    constructor <;> simp [stepE, h]

/-- Witness for C10: an unregistered connection's typing event is a no-op with
no emissions; a registered one mutates the typing map and broadcasts. -/
theorem c10_witness :
    stepE c10State (Event.typing "ghost" true) = (c10State, []) ∧
    (stepE c10State (Event.typing "a" true)).1.typingUsers = [("a", "alice")] ∧
    (stepE c10State (Event.typing "a" true)).2 =
      [Out.typingUsersAll ["alice"]] :=
  ⟨(c10_typing_guard c10State "ghost" true).1 rfl,
   by rw [((c10_typing_guard c10State "a" true).2 "alice" rfl).1]; decide,
   by rw [((c10_typing_guard c10State "a" true).2 "alice" rfl).2]; decide⟩

lemma addReactionEntry_count (rs : List Reaction) (e e' : String) :
    reactionCount (addReactionEntry rs e) e' =
      if e' = e then reactionCount rs e' + 1 else reactionCount rs e' := by
  by_cases h : e' = e
  · subst h
    simp only [if_pos rfl]
    induction rs with
    | nil => simp [addReactionEntry, reactionCount]
    | cons r rest ih =>
        by_cases hr : r.emoji = e'
        · simp [addReactionEntry, reactionCount, hr]
        · simp [addReactionEntry, reactionCount, hr, ih]
  · simp only [if_neg h]
    induction rs with
    | nil =>
        have : ¬ (e = e') := fun hc => h hc.symm
        simp [addReactionEntry, reactionCount, this]
    | cons r rest ih =>
        by_cases hr : r.emoji = e
        · have hre' : ¬ r.emoji = e' := fun hc => h (hr ▸ hc : e = e').symm
          have hee' : ¬ (e = e') := fun hc => h hc.symm
          simp [addReactionEntry, reactionCount, hr, hre', hee']
        · by_cases hre' : r.emoji = e'
          · simp [addReactionEntry, reactionCount, hr, hre', h]
          · simp [addReactionEntry, reactionCount, hr, hre', ih]

lemma emojis_addReactionEntry (rs : List Reaction) (e : String) :
    (addReactionEntry rs e).map (fun r => r.emoji) =
      if e ∈ rs.map (fun r => r.emoji) then rs.map (fun r => r.emoji)
      else rs.map (fun r => r.emoji) ++ [e] := by
  induction rs with
  | nil => simp [addReactionEntry]
  | cons r rest ih =>
      by_cases hr : r.emoji = e
      · simp [addReactionEntry, hr]
      · have : ¬ (e = r.emoji) := fun hc => hr hc.symm
        by_cases hm : e ∈ rest.map (fun r => r.emoji) <;>
          simp [addReactionEntry, hr, ih, hm, this]

lemma foldl_addReactionEntry_count (es : List String) (rs : List Reaction)
    (e : String) :
    reactionCount (es.foldl addReactionEntry rs) e =
      reactionCount rs e + es.count e := by
  induction es generalizing rs with
  | nil => simp
  | cons a es ih =>
      simp only [List.foldl_cons, ih, addReactionEntry_count, List.count_cons]
      by_cases h : e = a
      · subst h
        simp only [if_pos rfl, beq_self_eq_true, if_true]
        omega
      · have hba : (a == e) = false := by
          simpa using fun hc : a = e => h hc.symm
        have hba2 : (e == a) = false := by simpa using h
        simp only [if_neg h, hba, hba2, Bool.false_eq_true, if_false]
        omega

lemma foldl_addReactionEntry_emojis (es : List String) (rs : List Reaction) :
    (es.foldl addReactionEntry rs).map (fun r => r.emoji) =
      rs.map (fun r => r.emoji) ++
        newEmojis (rs.map (fun r => r.emoji)) es := by
  induction es generalizing rs with
  | nil => simp [newEmojis]
  | cons a es ih =>
      simp only [List.foldl_cons, ih, emojis_addReactionEntry, newEmojis]
      by_cases h : a ∈ rs.map (fun r => r.emoji)
      · simp [h]
      · simp [h]

lemma storeAddReaction_split (pre post : List Message) (m : Message)
    (mid : Nat) (e : String)
    (hpre : ∀ p ∈ pre, p.id ≠ mid) (hm : m.id = mid) :
    storeAddReaction (pre ++ m :: post) mid e =
      pre ++ { m with reactions := addReactionEntry m.reactions e } :: post := by
  induction pre with
  | nil => simp [storeAddReaction, hm]
  | cons p pre ih =>
      have hp : p.id ≠ mid := hpre p (by simp)
      simp [storeAddReaction, hp, ih (fun q hq => hpre q (by simp [hq]))]

lemma findMessage_split (pre post : List Message) (m : Message) (mid : Nat)
    (hpre : ∀ p ∈ pre, p.id ≠ mid) (hm : m.id = mid) :
    findMessage (pre ++ m :: post) mid = some m := by
  induction pre with
  | nil => simp [findMessage, hm]
  | cons p pre ih =>
      have hp : p.id ≠ mid := hpre p (by simp)
      simp only [findMessage, List.cons_append, List.find?_cons]
      have : (p.id == mid) = false := by simpa using hp
      rw [this]
      exact ih (fun q hq => hpre q (by simp [hq]))

lemma step_addReaction_found (s : ServerState) (sid : String) (mid : Nat)
    (e : String) (h : (findMessage s.messages mid).isSome) :
    step s (Event.addReaction sid mid e) =
      { s with messages := storeAddReaction s.messages mid e } := by
  simp only [step, stepE]
  split
  · split <;> rfl
  · next heq => rw [heq] at h; simp at h

lemma steps_addReaction_fold (es : List String) (sid : String) (mid : Nat) :
    ∀ (s : ServerState) (pre post : List Message) (m : Message),
    s.messages = pre ++ m :: post →
    (∀ p ∈ pre, p.id ≠ mid) → m.id = mid →
    (steps s (es.map (fun e => Event.addReaction sid mid e))).messages =
      pre ++ { m with reactions := es.foldl addReactionEntry m.reactions } :: post := by
  induction es with
  | nil =>
      intro s pre post m hs hpre hm
      simpa [steps] using hs
  | cons e es ih =>
      intro s pre post m hs hpre hm
      have hfind : (findMessage s.messages mid).isSome := by
        rw [hs, findMessage_split pre post m mid hpre hm]; rfl
      show (steps (step s (Event.addReaction sid mid e))
              (es.map (fun e => Event.addReaction sid mid e))).messages = _
      have hmsgs : (step s (Event.addReaction sid mid e)).messages =
          pre ++ { m with reactions := addReactionEntry m.reactions e } :: post := by
        rw [step_addReaction_found s sid mid e hfind]
        show storeAddReaction s.messages mid e = _
        rw [hs]
        exact storeAddReaction_split pre post m mid e hpre hm
      exact ih _ pre post _ hmsgs hpre hm

/-- C3: starting from a message with empty reactions, a sequence of
add_reaction events on its id increments existing entries and appends new
ones at the end, so the final count of each emoji equals the number of calls
with that emoji, and the entry order is first-occurrence (insertion) order. -/
theorem c3_reaction_counts (s : ServerState) (sid : String) (mid : Nat)
    (es : List String) (pre post : List Message) (m : Message)
    (hs : s.messages = pre ++ m :: post)
    (hpre : ∀ p ∈ pre, p.id ≠ mid) (hm : m.id = mid)
    (h0 : m.reactions = []) :
    (steps s (es.map (fun e => Event.addReaction sid mid e))).messages =
      pre ++ { m with reactions := es.foldl addReactionEntry [] } :: post ∧
    (∀ e, reactionCount (es.foldl addReactionEntry []) e = es.count e) ∧
    (es.foldl addReactionEntry []).map (fun r => r.emoji) = newEmojis [] es := by
  refine ⟨?_, ?_, ?_⟩
  · have h := steps_addReaction_fold es sid mid s pre post m hs hpre hm
    rwa [h0] at h
  · intro e
    rw [foldl_addReactionEntry_count]
    simp [reactionCount]
  · rw [foldl_addReactionEntry_emojis]
    simp

/-- Witness for C3: reacting "x", "y", "x" on the stored message yields
entries x:2 then y:1, in insertion order. -/
theorem c3_witness :
    (steps c3State (["x", "y", "x"].map (fun e => Event.addReaction "b" 1 e))).messages =
      [{ c3Msg with reactions := ["x", "y", "x"].foldl addReactionEntry [] }] ∧
    reactionCount (["x", "y", "x"].foldl addReactionEntry []) "x" = 2 ∧
    reactionCount (["x", "y", "x"].foldl addReactionEntry []) "y" = 1 ∧
    (["x", "y", "x"].foldl addReactionEntry []).map (fun r => r.emoji) = ["x", "y"] := by
  have h := c3_reaction_counts c3State "b" 1 ["x", "y", "x"] [] [] c3Msg rfl
    (by simp) rfl rfl
  exact ⟨h.1, (h.2.1 "x").trans (by decide), (h.2.1 "y").trans (by decide),
    h.2.2.trans (by decide)⟩

lemma enumFrom_slice {α : Type} (l : List α) : ∀ (n : Nat) (a b : Int),
    ((List.enumFrom n l).filter
        (fun p => decide (a ≤ (p.1 : Int)) && decide ((p.1 : Int) < b))).map
        (fun p => p.2) =
      (l.drop ((a - n).toNat)).take ((b - n).toNat - (a - n).toNat) := by
  induction l with
  | nil => intro n a b; simp
  | cons x xs ih =>
      intro n a b
      simp only [List.enumFrom_cons, List.filter_cons]
      by_cases h : a ≤ (n : Int) ∧ (n : Int) < b
      · rw [if_pos (by simp [h.1, h.2])]
        simp only [List.map_cons]
        rw [ih (n + 1) a b]
        have h0 : (a - n).toNat = 0 := by omega
        have h1 : (a - (n + 1 : Nat)).toNat = 0 := by omega
        have h2 : (b - n).toNat = (b - (n + 1 : Nat)).toNat + 1 := by omega
        rw [h0, h1, h2]
        simp [List.take_succ_cons]
      · have hcond : (decide (a ≤ (n : Int)) && decide ((n : Int) < b)) = false := by
          rcases not_and_or.mp h with h' | h'
          · simp [h']
          · simp [h']
        rw [hcond]
        simp only [Bool.false_eq_true, if_false]
        rw [ih (n + 1) a b]
        rcases not_and_or.mp h with h' | h'
        · have hn : (n : Int) < a := Int.not_le.mp h'
          have hk : (a - n).toNat = (a - (n + 1 : Nat)).toNat + 1 := by omega
          rw [hk, List.drop_succ_cons]
          congr 1
          omega
        · have hb : b ≤ (n : Int) := Int.not_lt.mp h'
          have hz : (b - n).toNat - (a - n).toNat = 0 := by omega
          have hz2 : (b - (n + 1 : Nat)).toNat - (a - (n + 1 : Nat)).toNat = 0 := by
            omega
          rw [hz, hz2]
          simp

lemma indexSlice_eq_drop_take {α : Type} (l : List α) (a b : Int) :
    indexSlice l a b = (l.drop a.toNat).take (b.toNat - a.toNat) := by
  have h := enumFrom_slice l 0 a b
  simpa [indexSlice, List.enum] using h

lemma jsSlice_nonneg {α : Type} (l : List α) (a b : Int)
    (ha : 0 ≤ a) (hb : 0 ≤ b) :
    jsSlice l a b = (l.drop a.toNat).take (b.toNat - a.toNat) := by
  simp only [jsSlice]
  rw [if_neg (by omega), if_neg (by omega)]
  rcases le_or_lt a (l.length : Int) with h | h
  · have h1 : min a (l.length : Int) = a := min_eq_left h
    rw [h1]
    rw [List.take_eq_take.mpr]
    simp only [List.length_drop]
    omega
  · have h1 : min a (l.length : Int) = (l.length : Int) := min_eq_right h.le
    have h2 : min b (l.length : Int) ≤ (l.length : Int) := min_le_right _ _
    rw [h1]
    have hd1 : l.drop (((l.length : Int)).toNat) = [] := by simp
    have hd2 : l.drop a.toNat = [] := List.drop_eq_nil_iff.mpr (by omega)
    rw [hd2]
    simp [hd1]

/-- C4 counterexample: with three messages in room general and the query
page = -1, limit = 1, the handler returns the middle message (JS slice
interprets the negative indices -2 and -1 relative to the end of the array),
while the claimed index range [(page-1)*limit, page*limit) = [-2, -1)
contains no list position at all, so the claimed slice is empty. -/
theorem c4_negative_page_counterexample :
    (apiMessages c4State (some "general") (some (-1)) (some 1)).messages =
      [c4Msg 1] ∧
    indexSlice (c4State.messages.filter (fun m => m.room == "general"))
      (-2) (-1) = [] ∧
    (apiMessages c4State (some "general") (some (-1)) (some 1)).messages ≠
      indexSlice (c4State.messages.filter (fun m => m.room == "general"))
        (-2) (-1) := by
  refine ⟨by decide, by decide, by decide⟩

/-- C4 (amended): for every query, total is the count of room-filtered
messages and hasMore equals page*limit < total, computed with the parsed
(or defaulted) page and limit; page and limit default to 1 and 20 when the
parameters are absent or non-numeric; and for parsed page ≥ 1 and
limit ≥ 1 the result is the room-filtered sequence restricted to index
range [(page-1)*limit, page*limit).  (For negative parsed values JS slice
semantics diverge from the index-range reading; see the counterexample.) -/
theorem c4_pagination (s : ServerState) (roomQ : Option String)
    (pageQ limitQ : Option Int) (p L : Nat) (hp : 1 ≤ p) (hL : 1 ≤ L) :
    (apiMessages s roomQ pageQ limitQ).total =
      (s.messages.filter (fun m => m.room == strOr roomQ "general")).length ∧
    ((apiMessages s roomQ pageQ limitQ).hasMore = true ↔
      intParamOr pageQ 1 * intParamOr limitQ 20 <
        ((s.messages.filter (fun m => m.room == strOr roomQ "general")).length : Int)) ∧
    (apiMessages s roomQ none none).page = 1 ∧
    (apiMessages s roomQ none none).limit = 20 ∧
    (apiMessages s roomQ (some (p : Int)) (some (L : Int))).messages =
      indexSlice (s.messages.filter (fun m => m.room == strOr roomQ "general"))
        (((p : Int) - 1) * (L : Int)) ((p : Int) * (L : Int)) := by
  have hpz : intParamOr (some (p : Int)) 1 = (p : Int) := by
    simp only [intParamOr]
    rw [if_neg (by omega)]
  have hLz : intParamOr (some (L : Int)) 20 = (L : Int) := by
    simp only [intParamOr]
    rw [if_neg (by omega)]
  refine ⟨by simp [apiMessages], ?_, by simp [apiMessages, intParamOr],
    by simp [apiMessages, intParamOr], ?_⟩
  · show (decide (intParamOr pageQ 1 * intParamOr limitQ 20 < _) = true) ↔ _
    exact decide_eq_true_iff
  · show jsSlice _ ((intParamOr (some (p : Int)) 1 - 1) * intParamOr (some (L : Int)) 20)
        (intParamOr (some (p : Int)) 1 * intParamOr (some (L : Int)) 20) = _
    rw [hpz, hLz,
      jsSlice_nonneg _ _ _ (mul_nonneg (by omega) (by omega))
        (mul_nonneg (by omega) (by omega)),
      indexSlice_eq_drop_take]

/-- Witness for the amended C4: over three stored messages, the query
page = -1, limit = 1 still reports total 3 and hasMore true; missing
parameters default to page 1, limit 20; and page 2 with limit 1 returns
exactly the second message. -/
theorem c4_witness :
    (apiMessages c4State (some "general") (some (-1)) (some 1)).total = 3 ∧
    (apiMessages c4State (some "general") (some (-1)) (some 1)).hasMore = true ∧
    (apiMessages c4State (some "general") none none).page = 1 ∧
    (apiMessages c4State (some "general") none none).limit = 20 ∧
    (apiMessages c4State (some "general") (some 2) (some 1)).messages =
      [c4Msg 1] :=
  have h := c4_pagination c4State (some "general") (some (-1)) (some 1) 2 1
    (by decide) (by decide)
  ⟨h.1.trans (by decide), (h.2.1).mpr (by decide), h.2.2.1, h.2.2.2.1,
   h.2.2.2.2.trans (by decide)⟩

lemma flatten_chunks {α : Type} (L : Nat) (hL : 1 ≤ L) :
    ∀ (k : Nat) (l : List α), l.length ≤ k * L →
    ((List.range k).map (fun i => (l.drop (i * L)).take L)).flatten = l := by
  intro k
  induction k with
  | zero =>
      intro l h
      have : l = [] := List.eq_nil_of_length_eq_zero (by omega)
      simp [this]
  | succ k ih =>
      intro l h
      rw [List.range_succ_eq_map]
      simp only [List.map_cons, List.map_map, List.flatten_cons, Nat.zero_mul,
        List.drop_zero]
      have hmap : (List.range k).map ((fun i => (l.drop (i * L)).take L) ∘ Nat.succ)
          = (List.range k).map (fun i => ((l.drop L).drop (i * L)).take L) := by
        apply List.map_congr_left
        intro i _
        show (l.drop (Nat.succ i * L)).take L = _
        rw [List.drop_drop]
        congr 2
        rw [Nat.succ_mul]
        omega
      have hlen : (l.drop L).length ≤ k * L := by
        rw [List.length_drop]
        have hkl : (k + 1) * L = k * L + L := by ring
        omega
      rw [hmap, ih (l.drop L) hlen]
      exact List.take_append_drop L l

/-- C5: for limit ≥ 1, concatenating the messages of pages
1 .. ceil(total / limit) of a room reproduces the room-filtered message
sequence, each message once, in original order. -/
theorem c5_pages_reconstruct (s : ServerState) (roomQ : Option String)
    (L : Nat) (hL : 1 ≤ L) :
    ((List.range
        (((s.messages.filter (fun m => m.room == strOr roomQ "general")).length
            + L - 1) / L)).map
      (fun (i : Nat) => (apiMessages s roomQ (some ((i : Int) + 1)) (some (L : Int))).messages)).flatten
      = s.messages.filter (fun m => m.room == strOr roomQ "general") := by
  set filtered := s.messages.filter (fun m => m.room == strOr roomQ "general")
    with hf
  have hLz : intParamOr (some (L : Int)) 20 = (L : Int) := by
    simp only [intParamOr]
    rw [if_neg (by omega)]
  have hpage : ∀ i : Nat,
      (apiMessages s roomQ (some ((i : Int) + 1)) (some (L : Int))).messages =
        (filtered.drop (i * L)).take L := by
    intro i
    have hpz : intParamOr (some ((i : Int) + 1)) 1 = (i : Int) + 1 := by
      simp only [intParamOr]
      rw [if_neg (by omega)]
    have hnn1 : (0 : Int) ≤ ((i : Int) + 1 - 1) * (L : Int) :=
      mul_nonneg (by omega) (by omega)
    have hnn2 : (0 : Int) ≤ ((i : Int) + 1) * (L : Int) :=
      mul_nonneg (by omega) (by omega)
    have h1 : (((i : Int) + 1 - 1) * (L : Int)).toNat = i * L := by
      have hc : ((i : Int) + 1 - 1) * (L : Int) = ((i * L : Nat) : Int) := by
        push_cast
        ring
      omega
    have h2 : (((i : Int) + 1) * (L : Int)).toNat = i * L + L := by
      have hc : ((i : Int) + 1) * (L : Int) = ((i * L + L : Nat) : Int) := by
        push_cast
        ring
      omega
    show jsSlice filtered ((intParamOr (some ((i : Int) + 1)) 1 - 1)
        * intParamOr (some (L : Int)) 20)
        (intParamOr (some ((i : Int) + 1)) 1 * intParamOr (some (L : Int)) 20)
        = _
    rw [hpz, hLz, jsSlice_nonneg _ _ _ hnn1 hnn2, h1, h2,
      Nat.add_sub_cancel_left]
  have hmaps : (List.range ((filtered.length + L - 1) / L)).map
        (fun (i : Nat) => (apiMessages s roomQ (some ((i : Int) + 1)) (some (L : Int))).messages)
      = (List.range ((filtered.length + L - 1) / L)).map
        (fun i => (filtered.drop (i * L)).take L) :=
    List.map_congr_left (fun i _ => hpage i)
  rw [hmaps]
  apply flatten_chunks L hL
  have h := le_smul_ceilDiv (α := ℕ) (β := ℕ) (a := L) (b := filtered.length)
    (by omega)
  rwa [smul_eq_mul, Nat.ceilDiv_eq_add_pred_div, mul_comm] at h

/-- Witness for C5: three stored messages with limit 2 need 2 pages, whose
concatenation is the full sequence. -/
theorem c5_witness :
    ((List.range
        (((c4State.messages.filter (fun m => m.room == strOr (some "general") "general")).length
            + 2 - 1) / 2)).map
      (fun (i : Nat) => (apiMessages c4State (some "general") (some ((i : Int) + 1)) (some (2 : Int))).messages)).flatten
      = c4State.messages.filter (fun m => m.room == strOr (some "general") "general") :=
  c5_pages_reconstruct c4State (some "general") 2 (by decide)

/-- C6 (amended): a private_message event leaves the server state (in
particular the Message Store) unchanged, and — when the target is a live
connection and no connection has joined a room named after the target id —
the emitted private-message events are delivered exactly to the target and
the sender.  A third connection that has joined such a room does receive
them: see the counterexample. -/
theorem c6_private_message (s : ServerState) (sender tgt body : String)
    (now : Nat) (hconn : tgt ∈ s.connected)
    (hjoin : ∀ c, tgt ∉ (lookupKey s.joined c).getD []) :
    (stepE s (Event.privateMessage sender tgt body now)).1 = s ∧
    (∀ c, (∃ o ∈ (stepE s (Event.privateMessage sender tgt body now)).2,
        deliveredTo s o c = true) ↔ (c = tgt ∨ c = sender)) := by
  refine ⟨rfl, ?_⟩
  intro c
  constructor
  · rintro ⟨o, ho, hd⟩
    simp only [stepE, List.mem_cons, List.not_mem_nil, or_false] at ho
    rcases ho with rfl | rfl
    · simp only [deliveredTo, Bool.and_eq_true, decide_eq_true_iff,
        bne_iff_ne, ne_eq] at hd
      obtain ⟨hmem, hne⟩ := hd
      unfold membersOf at hmem
      rw [List.mem_filter] at hmem
      obtain ⟨-, hcond⟩ := hmem
      rcases Bool.or_eq_true_iff.mp hcond with h1 | h1
      · exact Or.inl (beq_iff_eq.mp h1)
      · exact absurd (of_decide_eq_true h1) (hjoin c)
    · exact Or.inr (by simpa [deliveredTo] using hd)
  · intro hc
    rcases hc with rfl | rfl
    · by_cases hts : c = sender
      · subst hts
        exact ⟨Out.privateMessageSelf c now (senderNameOf s.users c) body,
          by simp [stepE], by simp [deliveredTo]⟩
      · refine ⟨Out.privateMessageRoomExcept c sender now
          (senderNameOf s.users sender) body, by simp [stepE], ?_⟩
        simp only [deliveredTo, Bool.and_eq_true, decide_eq_true_iff,
          bne_iff_ne, ne_eq]
        refine ⟨?_, hts⟩
        unfold membersOf
        rw [List.mem_filter]
        exact ⟨hconn, by simp⟩
    · exact ⟨Out.privateMessageSelf c now (senderNameOf s.users c) body,
        by simp [stepE], by simp [deliveredTo]⟩

/-- Witness for C6: with connections A, B, C, a private message from A to B
leaves the state unchanged, reaches A and B, and does not reach C. -/
theorem c6_witness :
    (stepE c6State (Event.privateMessage "A" "B" "hi" 7)).1 = c6State ∧
    (∃ o ∈ (stepE c6State (Event.privateMessage "A" "B" "hi" 7)).2,
        deliveredTo c6State o "B" = true) ∧
    (∃ o ∈ (stepE c6State (Event.privateMessage "A" "B" "hi" 7)).2,
        deliveredTo c6State o "A" = true) ∧
    ¬ (∃ o ∈ (stepE c6State (Event.privateMessage "A" "B" "hi" 7)).2,
        deliveredTo c6State o "C" = true) := by
  have h := c6_private_message c6State "A" "B" "hi" 7 (by decide)
    (fun c => by simp [c6State, initState, lookupKey])
  refine ⟨h.1, (h.2 "B").mpr (Or.inl rfl), (h.2 "A").mpr (Or.inr rfl), ?_⟩
  intro hex
  rcases (h.2 "C").mp hex with h' | h' <;> exact absurd h' (by decide)

/-- C6 counterexample: the claim as stated — no third connection ever
receives a private message — fails on a reachable state.  Socket ids are
broadcast to everyone in user_list, and join_room accepts any room name, so
connection C can join a room named by the socket id of B; socket.to then
delivers the private message from A to B to connection C as a room member,
even though C is neither the target nor the sender. -/
theorem c6_third_party_receives :
    (stepE c6BadState (Event.privateMessage "A" "B" "hi" 7)).1 = c6BadState ∧
    Out.privateMessageRoomExcept "B" "A" 7 "Anonymous" "hi"
      ∈ (stepE c6BadState (Event.privateMessage "A" "B" "hi" 7)).2 ∧
    deliveredTo c6BadState
      (Out.privateMessageRoomExcept "B" "A" 7 "Anonymous" "hi") "C" = true ∧
    ("C" : String) ≠ "B" ∧ ("C" : String) ≠ "A" :=
  ⟨rfl, by decide, by decide, by decide, by decide⟩

lemma lookupKey_setKey_ne {β : Type} (l : List (String × β)) (k c : String)
    (v : β) (h : k ≠ c) : lookupKey (setKey l k v) c = lookupKey l c := by
  induction l with
  | nil => simp [setKey, lookupKey, h]
  | cons p rest ih =>
      by_cases hp : p.1 = k
      · simp [setKey, lookupKey, hp, h, ih]
      · simp only [setKey]
        rw [if_neg (by exact fun hc => hp (by cases p; simpa using hc))]
        simp [lookupKey, ih]

lemma lookupKey_delKey {β : Type} (l : List (String × β)) (k c : String) :
    lookupKey (delKey l k) c = if k = c then none else lookupKey l c := by
  induction l with
  | nil => simp [delKey, lookupKey]
  | cons p rest ih =>
      simp only [delKey, List.filter_cons] at ih ⊢
      by_cases hp : p.1 = k
      · have hcond : decide (p.1 ≠ k) = false := by simp [hp]
        rw [hcond]
        simp only [Bool.false_eq_true, if_false]
        rw [ih]
        by_cases hk : k = c
        · simp [hk]
        · rw [if_neg hk, if_neg hk]
          simp only [lookupKey]
          rw [if_neg (show ¬ p.1 = c from fun hc => hk (hp ▸ hc))]
      · have hcond : decide (p.1 ≠ k) = true := by simp [hp]
        rw [hcond]
        simp only [if_true]
        simp only [lookupKey]
        by_cases hc : p.1 = c
        · rw [if_pos hc, if_neg (fun hkc => hp (hc.trans hkc.symm)), if_pos hc]
        · rw [if_neg hc, ih]
          by_cases hk : k = c
          · simp [hk]
          · rw [if_neg hk, if_neg hk, if_neg hc]

lemma step_absent (s : ServerState) (e : Event) (c : String)
    (hc : e.conn ≠ c)
    (hu : lookupKey s.users c = none)
    (ht : lookupKey s.typingUsers c = none) :
    lookupKey (step s e).users c = none ∧
    lookupKey (step s e).typingUsers c = none := by
  cases e with
  | connect sid => exact ⟨hu, ht⟩
  | userJoin sid un =>
      refine ⟨?_, ht⟩
      show lookupKey (setKey s.users sid un) c = none
      rw [lookupKey_setKey_ne _ _ _ _ (show sid ≠ c from hc)]
      exact hu
  | sendMessage sid data now => exact ⟨hu, ht⟩
  | typing sid b =>
      cases hl : lookupKey s.users sid with
      | none =>
          constructor <;> simp only [step, stepE, hl] <;> assumption
      | some un =>
          refine ⟨?_, ?_⟩
          · simp only [step, stepE, hl]
            exact hu
          · simp only [step, stepE, hl]
            cases b
            · show lookupKey (delKey s.typingUsers sid) c = none
              rw [lookupKey_delKey]
              split
              · rfl
              · exact ht
            · show lookupKey (setKey s.typingUsers sid un) c = none
              rw [lookupKey_setKey_ne _ _ _ _ (show sid ≠ c from hc)]
              exact ht
  | privateMessage sid tgt body now => exact ⟨hu, ht⟩
  | joinRoom sid r => exact ⟨hu, ht⟩
  | createRoom sid r =>
      constructor <;> (simp only [step, stepE]; split) <;> assumption
  | sendFile sid data now => exact ⟨hu, ht⟩
  | addReaction sid mid em =>
      constructor <;> (simp only [step, stepE]; repeat' split) <;> assumption
  | markAsRead sid mid =>
      constructor <;> (simp only [step, stepE]; repeat' split) <;> assumption
  | disconnect sid =>
      refine ⟨?_, ?_⟩
      · show lookupKey (delKey s.users sid) c = none
        rw [lookupKey_delKey]
        split
        · rfl
        · exact hu
      · show lookupKey (delKey s.typingUsers sid) c = none
        rw [lookupKey_delKey]
        split
        · rfl
        · exact ht

lemma steps_absent (es : List Event) : ∀ (s : ServerState) (c : String),
    (∀ e ∈ es, e.conn ≠ c) →
    lookupKey s.users c = none → lookupKey s.typingUsers c = none →
    lookupKey (steps s es).users c = none ∧
    lookupKey (steps s es).typingUsers c = none := by
  induction es with
  | nil => intro s c _ hu ht; exact ⟨hu, ht⟩
  | cons e rest ih =>
      intro s c h hu ht
      have he : e.conn ≠ c := h e (by simp)
      have hstep := step_absent s e c he hu ht
      exact ih (step s e) c (fun e' he' => h e' (by simp [he'])) hstep.1 hstep.2

lemma userListOf_id_ne {users : List (String × String)} {c : String}
    (h : lookupKey users c = none) : ∀ u ∈ userListOf users, u.id ≠ c := by
  induction users with
  | nil => simp [userListOf]
  | cons p rest ih =>
      simp only [lookupKey] at h
      by_cases hp : p.1 = c
      · rw [if_pos hp] at h
        exact absurd h (by simp)
      · rw [if_neg hp] at h
        intro u hu
        simp only [userListOf, List.map_cons, List.mem_cons] at hu
        rcases hu with rfl | hu
        · simpa using hp
        · exact ih h u hu

lemma step_outs_userList (s : ServerState) (e : Event) (c : String)
    (hc : e.conn ≠ c) (hu : lookupKey s.users c = none) :
    ∀ o ∈ (stepE s e).2, ∀ l, o = Out.userListAll l → ∀ u ∈ l, u.id ≠ c := by
  intro o ho l hol u hul
  subst hol
  cases e with
  | connect sid => simp [stepE] at ho
  | userJoin sid un =>
      simp only [stepE, List.mem_cons, List.not_mem_nil, or_false] at ho
      rcases ho with h | h
      · injection h with h'
        subst h'
        refine userListOf_id_ne ?_ u hul
        rw [lookupKey_setKey_ne _ _ _ _ (show sid ≠ c from hc)]
        exact hu
      · exact Out.noConfusion h
  | sendMessage sid data now =>
      simp only [stepE, List.mem_cons, List.not_mem_nil, or_false] at ho
      rcases ho with h | h <;> exact Out.noConfusion h
  | typing sid b =>
      cases hl : lookupKey s.users sid with
      | none => simp [stepE, hl] at ho
      | some un =>
          simp only [stepE, hl, List.mem_cons, List.not_mem_nil, or_false] at ho
          exact Out.noConfusion ho
  | privateMessage sid tgt body now =>
      simp only [stepE, List.mem_cons, List.not_mem_nil, or_false] at ho
      rcases ho with h | h <;> exact Out.noConfusion h
  | joinRoom sid r => simp [stepE] at ho
  | createRoom sid r =>
      simp only [stepE] at ho
      split at ho
      · simp at ho
      · simp only [List.mem_cons, List.not_mem_nil, or_false] at ho
        exact Out.noConfusion ho
  | sendFile sid data now =>
      simp only [stepE, List.mem_cons, List.not_mem_nil, or_false] at ho
      exact Out.noConfusion ho
  | addReaction sid mid em =>
      simp only [stepE] at ho
      repeat' split at ho
      all_goals simp only [List.mem_cons, List.not_mem_nil, or_false] at ho
      exact Out.noConfusion ho
  | markAsRead sid mid =>
      simp only [stepE] at ho
      repeat' split at ho
      all_goals simp only [List.mem_cons, List.not_mem_nil, or_false] at ho
      exact Out.noConfusion ho
  | disconnect sid =>
      simp only [stepE] at ho
      rcases List.mem_append.mp ho with h | h
      · split at h
        · simp only [List.mem_cons, List.not_mem_nil, or_false] at h
          exact Out.noConfusion h
        · simp at h
      · simp only [List.mem_cons, List.not_mem_nil, or_false] at h
        rcases h with h | h
        · injection h with h'
          subst h'
          refine userListOf_id_ne ?_ u hul
          rw [lookupKey_delKey]
          split
          · rfl
          · exact hu
        · exact Out.noConfusion h

lemma stepsOuts_userList (es : List Event) : ∀ (s : ServerState) (c : String),
    (∀ e ∈ es, e.conn ≠ c) →
    lookupKey s.users c = none → lookupKey s.typingUsers c = none →
    ∀ o ∈ stepsOuts s es, ∀ l, o = Out.userListAll l → ∀ u ∈ l, u.id ≠ c := by
  induction es with
  | nil => intro s c _ _ _ o ho; simp [stepsOuts] at ho
  | cons e rest ih =>
      intro s c h hu ht o ho l hol u hul
      have he : e.conn ≠ c := h e (by simp)
      simp only [stepsOuts] at ho
      rcases List.mem_append.mp ho with hh | hh
      · exact step_outs_userList s e c he hu o hh l hol u hul
      · have hstep := step_absent s e c he hu ht
        exact ih (step s e) c (fun e' he' => h e' (by simp [he'])) hstep.1
          hstep.2 o hh l hol u hul

/-- C7: after a connection disconnects, as long as no later event comes from
that connection id, it stays absent from the user registry and the typing
map at every subsequent point (so every presence or typing snapshot, which
is computed from those maps, excludes it), and every user_list event emitted
later carries no entry with that id.  This holds even if the connection was
typing at the moment of disconnect. -/
theorem c7_disconnect_removes (s : ServerState) (c : String) (es : List Event)
    (h : ∀ e ∈ es, e.conn ≠ c) :
    (∀ n : Nat,
      lookupKey (steps (step s (Event.disconnect c)) (es.take n)).users c = none ∧
      lookupKey (steps (step s (Event.disconnect c)) (es.take n)).typingUsers c = none ∧
      ∀ u ∈ userListOf (steps (step s (Event.disconnect c)) (es.take n)).users,
        u.id ≠ c) ∧
    (∀ o ∈ stepsOuts (step s (Event.disconnect c)) es,
      ∀ l, o = Out.userListAll l → ∀ u ∈ l, u.id ≠ c) := by
  have hu0 : lookupKey (step s (Event.disconnect c)).users c = none := by
    show lookupKey (delKey s.users c) c = none
    rw [lookupKey_delKey, if_pos rfl]
  have ht0 : lookupKey (step s (Event.disconnect c)).typingUsers c = none := by
    show lookupKey (delKey s.typingUsers c) c = none
    rw [lookupKey_delKey, if_pos rfl]
  constructor
  · intro n
    have htake : ∀ e ∈ es.take n, e.conn ≠ c :=
      fun e he => h e (List.take_subset n es he)
    have habs := steps_absent (es.take n) (step s (Event.disconnect c)) c htake
      hu0 ht0
    exact ⟨habs.1, habs.2, userListOf_id_ne habs.1⟩
  · exact stepsOuts_userList es (step s (Event.disconnect c)) c h hu0 ht0

/-- Witness for C7: disconnecting "a" while alice is typing removes it from
both maps, and after further events from "b" it is still absent; the
user_list snapshots emitted later have no entry with id "a". -/
theorem c7_witness :
    (∀ e ∈ c7Tail, e.conn ≠ "a") ∧
    lookupKey (steps (step c7State (Event.disconnect "a")) (c7Tail.take 2)).users "a"
      = none ∧
    lookupKey (steps (step c7State (Event.disconnect "a")) (c7Tail.take 2)).typingUsers "a"
      = none ∧
    (∀ o ∈ stepsOuts (step c7State (Event.disconnect "a")) c7Tail,
      ∀ l, o = Out.userListAll l → ∀ u ∈ l, u.id ≠ "a") :=
  ⟨by decide,
   ((c7_disconnect_removes c7State "a" c7Tail (by decide)).1 2).1,
   ((c7_disconnect_removes c7State "a" c7Tail (by decide)).1 2).2.1,
   (c7_disconnect_removes c7State "a" c7Tail (by decide)).2⟩
